import Mathlib

/-!
Verification of the message-intake and deduplication pipeline of the
cryptoainews processor (src/src/services/telegramService.js).

The stateful Redis cache is embedded as an explicit `CacheState` record and
every Redis operation of the source becomes a pure state transformation.
External collaborators are embedded as oracles: the Summarizer
(`processTelegramMessage` of utils/openai.js, which catches all its errors
and returns null on failure) is a function returning `Option Summary`; the
WHATWG URL parser and the URL regex engine are the two fields of
`UrlOracle`; the Telegram channel is a list of messages from which the
client fetch calls are derived, following the wrapper functions of the
source and their documented fetch semantics.
-/

set_option maxRecDepth 8000
set_option linter.unusedVariables false

namespace CryptoNews

/-- The first n characters of a string, as message.text.substring(0, n)
takes them. -/
def takeChars (s : String) (n : Nat) : String :=
  (s.toList.take n).asString

/-- The whitespace test of String.prototype.trim, restricted to the
common whitespace characters. -/
def isWsChar (c : Char) : Bool :=
  c = ' ' || c = Char.ofNat 9 || c = Char.ofNat 10 || c = Char.ofNat 13

/-- String.prototype.trim: strip leading and trailing whitespace. -/
def trimChars (s : String) : String :=
  (((s.toList.dropWhile isWsChar).reverse.dropWhile isWsChar).reverse).asString

/-- Configuration values read from the environment by telegramService.js:
MAX_ARTICLES (default 25) and MESSAGE_FETCH_LIMIT (default 25). -/
structure Config where
  maxArticles : Nat
  messageFetchLimit : Nat
deriving DecidableEq

/-- A Telegram message entity, as inspected by extractValidUrl:
the source checks e.className and e.type and reads e.url. -/
structure MsgEntity where
  className : String
  type : String
  url : Option String
deriving DecidableEq

/-- A Telegram message: numeric id (0 models a missing/falsy id),
text and entity list. -/
structure Message where
  id : Nat
  text : String
  entities : List MsgEntity
deriving DecidableEq

/-- Result of the Summarizer (processTelegramMessage): headline, content
and the source link. -/
structure Summary where
  headline : String
  content : String
  link : String
deriving DecidableEq

/-- The outcome of the WHATWG URL constructor on a string that parses:
its protocol and its normalized string form (parsed.toString()). -/
structure ParsedUrl where
  protocol : String
  href : String
deriving DecidableEq

/-- External pure collaborators of extractValidUrl: `parse` models the
WHATWG URL constructor (none when the constructor throws) and `matchList`
models text.match(urlRegex) (the list of regex matches, empty for null). -/
structure UrlOracle where
  parse : String → Option ParsedUrl
  matchList : String → List String

/-- External collaborators of processAndStoreMessage: the URL oracle, the
Summarizer oracle (raw text, message id, extracted url ↦ result or null)
and the current date string used for the article date field. -/
structure Env where
  url : UrlOracle
  summarize : String → Nat → String → Option Summary
  now : String

/-- An Article as built and stored by processAndStoreMessage. -/
structure Article where
  id : Nat
  apiId : Nat
  headline : String
  article : String
  source : String
  date : String
  status : String
deriving DecidableEq

/-- The Redis state used by the pipeline: the `articles` JSON list, the
processed_ids set, the set of ids whose lock:id key exists, the set of ids
whose failed:id key exists and is unexpired, the article_api_id_counter key
(none when absent) and the lastMaxId key (0 when absent). -/
structure CacheState where
  articles : List Article
  processedSet : List Nat
  locks : List Nat
  failed : List Nat
  counter : Option Nat
  lastMaxId : Nat
deriving DecidableEq

/-- Redis sAdd on a set modelled as a duplicate-free list. -/
def sAdd (s : List Nat) (x : Nat) : List Nat :=
  if x ∈ s then s else x :: s

/-- The integer value Redis INCR sees for the counter key: missing keys
count as 0. -/
def counterVal (s : CacheState) : Nat :=
  s.counter.getD 0

/-- isValidHttpUrl of the source: protocol is http: or https:. -/
def isValidHttpUrl (p : ParsedUrl) : Bool :=
  p.protocol == "http:" || p.protocol == "https:"

/-- The entity predicate of extractValidUrl: className is
MessageEntityTextUrl or type is textUrl. -/
def entIsTextUrl (e : MsgEntity) : Bool :=
  e.className == "MessageEntityTextUrl" || e.type == "textUrl"

/-- One candidate string run through the URL constructor and the protocol
check, as both branches of extractValidUrl do: the normalized URL when it
parses with protocol http/https, otherwise none. -/
def urlCandidate (o : UrlOracle) (u : String) : Option String :=
  match o.parse u with
  | some p => if isValidHttpUrl p then some p.href else none
  | none => none

/-- The entity branch of extractValidUrl applied to the found entity:
its url field, when present, run through urlCandidate. -/
def entityUrlResult (o : UrlOracle) (e : MsgEntity) : Option String :=
  match e.url with
  | some u => urlCandidate o u
  | none => none

/-- The regex-fallback loop of extractValidUrl: the first match that
parses as a valid http/https URL. -/
def firstValidUrl (o : UrlOracle) : List String → Option String
  | [] => none
  | u :: rest =>
    match urlCandidate o u with
    | some r => some r
    | none => firstValidUrl o rest

/-- extractValidUrl of the source: the first text-link entity is checked
first and wins when its target is a valid http/https URL; otherwise the
regex matches of the text are scanned in order; otherwise none. The
source catches parse errors internally, so the embedding is total. -/
def extractValidUrl (o : UrlOracle) (text : String) (entities : List MsgEntity) :
    Option String :=
  let entityRes :=
    match entities.find? entIsTextUrl with
    | some e => entityUrlResult o e
    | none => none
  match entityRes with
  | some r => some r
  | none => firstValidUrl o (o.matchList text)

/-- The characters stripped from the headline by
headline.replace of the source (asterisk, underscore, tilde, backtick,
double quote, single quote). -/
def isStrippedChar (c : Char) : Bool :=
  c = '*' || c = '_' || c = '~' || c = Char.ofNat 96 || c = Char.ofNat 34 ||
    c = Char.ofNat 39

/-- cleanHeadline of the source: strip markdown/quote punctuation, trim,
cap at 100 characters. -/
def cleanHeadline (h : String) : String :=
  takeChars (trimChars (h.toList.filter (fun c => !isStrippedChar c)).asString) 100

/-- Descending order on articles used by the source sort
comparator (a, b) => b.id - a.id. -/
def articleDesc (a b : Article) : Prop := b.id ≤ a.id

instance : DecidableRel articleDesc := fun a b => Nat.decLe b.id a.id

instance : IsTotal Article articleDesc := ⟨fun a b => le_total b.id a.id⟩

instance : IsTrans Article articleDesc :=
  ⟨fun _ _ _ h1 h2 => le_trans h2 h1⟩

/-- The stable sort of the article list, newest id first. -/
def sortArticlesDesc (l : List Article) : List Article :=
  List.insertionSort articleDesc l

/-- The updated article list written by the atomic transaction of
processAndStoreMessage: new article prepended to the list with any
same-id entry filtered out, sorted newest-id-first and trimmed to
MAX_ARTICLES. -/
def updatedArticles (cfg : Config) (newArticle : Article) (current : List Article) :
    List Article :=
  (sortArticlesDesc (newArticle :: current.filter (fun a => a.id ≠ newArticle.id))).take
    cfg.maxArticles

/-- The Article record built by processAndStoreMessage before the atomic
transaction: message id, next counter value, cleaned headline, summary
content, extracted URL, current date and the fixed processed status. -/
def builtArticle (env : Env) (m : Message) (u : String) (sm : Summary)
    (s : CacheState) : Article :=
  { id := m.id
    apiId := counterVal s + 1
    headline := cleanHeadline sm.headline
    article := sm.content
    source := u
    date := env.now
    status := "processed" }

/-- The distinguishable exits of processAndStoreMessage. -/
inductive ProcResult where
  | invalidMsg
  | skippedLock
  | skippedProcessed
  | skippedNoUrl
  | failedValidation
  | stored
deriving DecidableEq

/-- The boolean actually returned by processAndStoreMessage: true for the
skip paths and the store path, false for an invalid message and for a
validation failure. -/
def ProcResult.toBool : ProcResult → Bool
  | .invalidMsg => false
  | .skippedLock => true
  | .skippedProcessed => true
  | .skippedNoUrl => true
  | .failedValidation => false
  | .stored => true

/-- processAndStoreMessage of the source. Every path through the try
block ends in the finally clause deleting the lock key, including the
path where lock acquisition failed because the key was already held. -/
def processAndStoreMessage (cfg : Config) (env : Env) (m : Message) (s : CacheState) :
    ProcResult × CacheState :=
  if m.id = 0 then (.invalidMsg, s)
  else if m.id ∈ s.locks then
    -- lock not acquired: return true, but the finally clause still
    -- deletes the lock key held by the other attempt
    (.skippedLock, { s with locks := s.locks.erase m.id })
  else if m.id ∈ s.processedSet then
    (.skippedProcessed, { s with locks := s.locks.erase m.id })
  else
    let rawText := takeChars m.text 2000
    match extractValidUrl env.url rawText m.entities with
    | none =>
      (.skippedNoUrl,
        { s with processedSet := sAdd s.processedSet m.id,
                 locks := s.locks.erase m.id })
    | some extractedUrl =>
      match env.summarize rawText m.id extractedUrl with
      | none =>
        (.failedValidation,
          { s with failed := sAdd s.failed m.id,
                   processedSet := sAdd s.processedSet m.id,
                   locks := s.locks.erase m.id })
      | some processed =>
        if processed.headline = "" ∨ processed.content = "" ∨
            processed.content.length < 50 then
          (.failedValidation,
            { s with failed := sAdd s.failed m.id,
                     processedSet := sAdd s.processedSet m.id,
                     locks := s.locks.erase m.id })
        else
          let newArticle := builtArticle env m extractedUrl processed s
          (.stored,
            { s with articles := updatedArticles cfg newArticle s.articles,
                     processedSet := sAdd s.processedSet m.id,
                     failed := s.failed.erase m.id,
                     counter := some (counterVal s + 1),
                     locks := s.locks.erase m.id })

/-- An execution of processAndStoreMessage in which an exception occurs
after the INCR of the API-ID counter and before multi.exec commits the
transaction: the catch block records a failure, adds the id to the
processed set and returns false, and the finally clause deletes the lock.
The guards before the INCR are those of the normal path. -/
def processAndStoreMessageCrashAfterIncr (cfg : Config) (env : Env) (m : Message)
    (s : CacheState) : ProcResult × CacheState :=
  if m.id = 0 then (.invalidMsg, s)
  else if m.id ∈ s.locks then
    (.skippedLock, { s with locks := s.locks.erase m.id })
  else if m.id ∈ s.processedSet then
    (.skippedProcessed, { s with locks := s.locks.erase m.id })
  else
    let rawText := takeChars m.text 2000
    match extractValidUrl env.url rawText m.entities with
    | none =>
      (.skippedNoUrl,
        { s with processedSet := sAdd s.processedSet m.id,
                 locks := s.locks.erase m.id })
    | some extractedUrl =>
      match env.summarize rawText m.id extractedUrl with
      | none =>
        (.failedValidation,
          { s with failed := sAdd s.failed m.id,
                   processedSet := sAdd s.processedSet m.id,
                   locks := s.locks.erase m.id })
      | some processed =>
        if processed.headline = "" ∨ processed.content = "" ∨
            processed.content.length < 50 then
          (.failedValidation,
            { s with failed := sAdd s.failed m.id,
                     processedSet := sAdd s.processedSet m.id,
                     locks := s.locks.erase m.id })
        else
          -- the counter INCR has taken effect; the article transaction
          -- never commits; the catch block and finally clause run
          (.failedValidation,
            { s with counter := some (counterVal s + 1),
                     failed := sAdd s.failed m.id,
                     processedSet := sAdd s.processedSet m.id,
                     locks := s.locks.erase m.id })

/-- Ascending order on messages used by the backfill sort
comparator (a, b) => a.id - b.id. -/
def msgAsc (a b : Message) : Prop := a.id ≤ b.id

instance : DecidableRel msgAsc := fun a b => Nat.decLe a.id b.id

/-- Descending order on messages used by the forward-fetch sort
comparator (a, b) => b.id - a.id. -/
def msgDesc (a b : Message) : Prop := b.id ≤ a.id

instance : DecidableRel msgDesc := fun a b => Nat.decLe b.id a.id

/-- Stable sort of a message batch, oldest id first. -/
def sortMessagesAsc (l : List Message) : List Message :=
  List.insertionSort msgAsc l

/-- Stable sort of a message batch, newest id first. -/
def sortMessagesDesc (l : List Message) : List Message :=
  List.insertionSort msgDesc l

/-- The channel is the list of messages the external client can see. -/
abbrev Channel := List Message

/-- getCurrentTelegramMaxId of the source: the id of the latest message
of the channel, 0 when the channel is empty or the fetch fails. -/
def getCurrentTelegramMaxId (ch : Channel) : Nat :=
  ch.foldl (fun acc m => max acc m.id) 0

/-- The raw client.getMessages call with offsetId 0 and reverse false:
the latest `limit` messages, newest first. -/
def channelLatestRaw (ch : Channel) (limit : Nat) : List Message :=
  (sortMessagesDesc ch).take limit

/-- The raw client.getMessages call with reverse true and an offsetId, as
the backfill wrapper documents it: up to `limit` messages older than the
offset, starting from the offset downwards, returned oldest first. -/
def channelOlderRaw (ch : Channel) (offsetId limit : Nat) : List Message :=
  (((sortMessagesDesc ch).filter (fun m => decide (m.id < offsetId))).take limit).reverse

/-- The raw client.getMessages call with an explicit id list. -/
def channelByIdsRaw (ch : Channel) (ids : List Nat) : List Message :=
  ch.filter (fun m => decide (m.id ∈ ids))

/-- fetchMessagesForBackfill of the source: fetch a bit more than needed
below the oldest stored id and keep the messages with a truthy id that
are strictly older. -/
def fetchMessagesForBackfill (cfg : Config) (ch : Channel)
    (oldestStoredId neededCount : Nat) : List Message :=
  let fetchLimit := max (neededCount + 10) cfg.messageFetchLimit
  (channelOlderRaw ch oldestStoredId fetchLimit).filter
    (fun m => m.id != 0 && decide (m.id < oldestStoredId))

/-- The failed-retry candidate set of fetchLatestMessages: the ids of the
unexpired failed:* keys that are strictly above the high-water mark. -/
def failedIdsToRetry (failed : List Nat) (redisMaxId : Nat) : List Nat :=
  failed.filter (fun i => decide (redisMaxId < i))

/-- One step of the JS Map built by fetchLatestMessages for
deduplication: an existing key keeps its position but takes the new
value, a new key is appended. -/
def mapInsert (acc : List Message) (m : Message) : List Message :=
  if acc.any (fun x => x.id == m.id) then
    acc.map (fun x => if x.id == m.id then m else x)
  else acc ++ [m]

/-- Deduplication of the combined candidate list by message id, keeping
first-occurrence order and last-occurrence values as a JS Map does. -/
def dedupeById (ms : List Message) : List Message :=
  ms.foldl mapInsert []

/-- fetchLatestMessages of the source: the latest batch filtered to ids
strictly above the high-water mark, plus the explicitly re-fetched
messages of the failed-retry candidate set, deduplicated by id. -/
def fetchLatestMessages (cfg : Config) (ch : Channel) (s : CacheState)
    (redisMaxId : Nat) : List Message :=
  let messages := channelLatestRaw ch cfg.messageFetchLimit
  let unprocessedNewer :=
    messages.filter (fun m => m.id != 0 && decide (redisMaxId < m.id))
  let retryIds := failedIdsToRetry s.failed redisMaxId
  let failedMessages :=
    if 0 < retryIds.length then
      (channelByIdsRaw ch retryIds).filter
        (fun m => m.id != 0 && decide (redisMaxId < m.id))
    else []
  dedupeById (unprocessedNewer ++ failedMessages)

/-- Math.min over the stored article ids, used by the backfill phase
(only evaluated on a nonempty list by the source). -/
def minIdOf (l : List Article) : Nat :=
  match l with
  | [] => 0
  | a :: t => t.foldl (fun acc b => min acc b.id) a.id

/-- The backfill processing loop of executePoll: candidates oldest first,
skipping falsy ids, already-processed ids and ids above a positive
high-water mark, breaking as soon as the stored count reaches capacity
after a processing attempt. -/
def backfillLoop (cfg : Config) (env : Env) (redisMaxId : Nat) :
    List Message → CacheState → CacheState
  | [], s => s
  | m :: rest, s =>
    if m.id = 0 then backfillLoop cfg env redisMaxId rest s
    else if m.id ∈ s.processedSet then backfillLoop cfg env redisMaxId rest s
    else if 0 < redisMaxId ∧ redisMaxId < m.id then
      backfillLoop cfg env redisMaxId rest s
    else
      let s' := (processAndStoreMessage cfg env m s).2
      if cfg.maxArticles ≤ s'.articles.length then s'
      else backfillLoop cfg env redisMaxId rest s'

/-- The forward-fetch processing loop of executePoll: candidates newest
first, skipping falsy ids and ids at or below the high-water mark;
already-processed ids and successful attempts raise the
highest-processed accumulator. -/
def forwardLoop (cfg : Config) (env : Env) (redisMaxId : Nat) :
    List Message → CacheState → Nat → CacheState × Nat
  | [], s, highest => (s, highest)
  | m :: rest, s, highest =>
    if m.id = 0 then forwardLoop cfg env redisMaxId rest s highest
    else if m.id ≤ redisMaxId then forwardLoop cfg env redisMaxId rest s highest
    else if m.id ∈ s.processedSet then
      forwardLoop cfg env redisMaxId rest s (max highest m.id)
    else
      let r := processAndStoreMessage cfg env m s
      if r.1.toBool then forwardLoop cfg env redisMaxId rest r.2 (max highest m.id)
      else forwardLoop cfg env redisMaxId rest r.2 highest

/-- The observable summary of one executePoll cycle: the
highest-successfully-or-skip-processed accumulator, the channel max id
fetched at the end of the cycle, and whether the lastMaxId key was
written. -/
structure PollReport where
  highestProcessed : Nat
  telegramMax : Nat
  markPersisted : Bool
deriving DecidableEq

/-- The backfill phase of executePoll: only when the stored count is
below capacity, compute the oldest stored id (or a start point from the
high-water mark when empty), skip entirely at the channel origin, and
run the backfill loop over the fetched candidates oldest first. -/
def pollBackfillPhase (cfg : Config) (env : Env) (ch : Channel) (s : CacheState) :
    CacheState :=
  let currentArticles := s.articles
  let redisMaxId := s.lastMaxId
  if currentArticles.length < cfg.maxArticles then
    let oldestArticleId :=
      if 0 < currentArticles.length then minIdOf currentArticles
      else if 0 < redisMaxId then redisMaxId + 1 else 1
    if oldestArticleId ≤ 1 ∧ 0 < currentArticles.length then s
    else
      let neededCount := cfg.maxArticles - currentArticles.length
      let messagesToBackfill :=
        fetchMessagesForBackfill cfg ch oldestArticleId neededCount
      if 0 < messagesToBackfill.length then
        backfillLoop cfg env redisMaxId (sortMessagesAsc messagesToBackfill) s
      else s
  else s

/-- The forward-fetch phase of executePoll: the candidate messages
newest first through the forward loop, returning the updated cache and
the highest-successfully-or-skip-processed accumulator (which starts at
the high-water mark read at cycle start). -/
def pollForwardPhase (cfg : Config) (env : Env) (ch : Channel) (s1 : CacheState)
    (redisMaxId : Nat) : CacheState × Nat :=
  let newMessages := fetchLatestMessages cfg ch s1 redisMaxId
  if 0 < newMessages.length then
    forwardLoop cfg env redisMaxId (sortMessagesDesc newMessages) s1 redisMaxId
  else (s1, redisMaxId)

/-- executePoll of the source: backfill phase when below capacity,
forward-fetch phase, then the lastMaxId update, persisted only when it
strictly increased. -/
def executePoll (cfg : Config) (env : Env) (ch : Channel) (s : CacheState) :
    CacheState × PollReport :=
  let redisMaxId := s.lastMaxId
  let s1 := pollBackfillPhase cfg env ch s
  let fwd := pollForwardPhase cfg env ch s1 redisMaxId
  let finalTelegramMaxId := getCurrentTelegramMaxId ch
  let newLastMaxId := max (max fwd.2 finalTelegramMaxId) redisMaxId
  if redisMaxId < newLastMaxId then
    ({ fwd.1 with lastMaxId := newLastMaxId },
      ⟨fwd.2, finalTelegramMaxId, true⟩)
  else
    (fwd.1, ⟨fwd.2, finalTelegramMaxId, false⟩)

/-- The API-ID counter initialization of initializeSystem: set the
counter key to the fixed start offset 999 only when the key is absent,
never touching an existing counter. -/
def initApiIdCounter (s : CacheState) : CacheState :=
  match s.counter with
  | none => { s with counter := some 999 }
  | some _ => s

/-- A sequence of processAndStoreMessage calls, threading the cache. -/
def runMessages (cfg : Config) (env : Env) (ms : List Message) (s : CacheState) :
    CacheState :=
  ms.foldl (fun st m => (processAndStoreMessage cfg env m st).2) s

/-- The apiId values assigned by the stores of a sequence of
processAndStoreMessage calls, in assignment order. -/
def assignedApiIds (cfg : Config) (env : Env) :
    List Message → CacheState → List Nat
  | [], _ => []
  | m :: rest, s =>
    let r := processAndStoreMessage cfg env m s
    if r.1 = .stored then counterVal r.2 :: assignedApiIds cfg env rest r.2
    else assignedApiIds cfg env rest r.2

/-! ### Concrete fixtures used by witnesses and counterexamples -/

/-- A reference URL parser for concrete runs: strings with an http or
https scheme parse to themselves, everything else fails to parse. -/
def simpleParse (u : String) : Option ParsedUrl :=
  if ("http://".toList).isPrefixOf u.toList then some ⟨"http:", u⟩
  else if ("https://".toList).isPrefixOf u.toList then some ⟨"https:", u⟩
  else none

/-- A reference URL oracle: the regex engine reports the whole text as
its single match (a non-URL text then fails the parse step). -/
def testOracle : UrlOracle := ⟨simpleParse, fun t => [t]⟩

/-- A summarizer body long enough to pass the 50-character minimum. -/
def longBody : String :=
  "Detailed analysis of the market with many full sentences inside."

/-- A summarizer oracle that always succeeds with a valid article. -/
def envOk : Env :=
  ⟨testOracle, fun _ _ link => some ⟨"Headline", longBody, link⟩,
    "2025-01-01T00:00:00.000Z"⟩

/-- A summarizer oracle whose body is below the 50-character minimum, so
message processing always fails validation. -/
def envShort : Env :=
  ⟨testOracle, fun _ _ link => some ⟨"H", "short", link⟩,
    "2025-01-01T00:00:00.000Z"⟩

/-- A message carrying a plain-text URL. -/
def urlMsg (i : Nat) : Message := ⟨i, "http://a.example/x", []⟩

/-- A cold cache: no articles, empty sets, counter initialized to the
start offset, no high-water mark. -/
def emptyState : CacheState := ⟨[], [], [], [], some 999, 0⟩

/-- The default configuration (MAX_ARTICLES 25, MESSAGE_FETCH_LIMIT 25). -/
def cfgD : Config := ⟨25, 25⟩

/-- A plain stored article used to build concrete cache states. -/
def art (i apiId : Nat) : Article :=
  ⟨i, apiId, "h", "b", "http://a.example/x", "d", "processed"⟩

/-- A cache state in which another processing attempt holds the lock for
message id 7. -/
def lockState : CacheState := ⟨[], [], [7], [], some 999, 0⟩

/-- A small configuration exposing the backfill behaviour of the second
poll cycle: capacity 2, fetch limit 1. -/
def cfg92 : Config := ⟨2, 1⟩

/-- A channel with two processable messages. -/
def ch92 : Channel := [urlMsg 1, urlMsg 2]

/-- A first text-link entity whose target does not parse as http/https. -/
def entBad : MsgEntity := ⟨"MessageEntityTextUrl", "", some "ftp://bad"⟩

/-- A second text-link entity whose target is a valid https URL. -/
def entGood : MsgEntity := ⟨"MessageEntityTextUrl", "", some "https://good.example/"⟩

/-- The final cache of a four-message run in which the second and fourth
attempts crash between the counter INCR and the article transaction. -/
def crashRunState : CacheState :=
  (processAndStoreMessageCrashAfterIncr cfgD envOk (urlMsg 4)
    ((processAndStoreMessage cfgD envOk (urlMsg 3)
      ((processAndStoreMessageCrashAfterIncr cfgD envOk (urlMsg 2)
        ((processAndStoreMessage cfgD envOk (urlMsg 1) emptyState).2)).2)).2)).2

/-- The cache left by one poll cycle over a single-message channel whose
summaries always fail validation. -/
def failCycleState : CacheState :=
  (executePoll cfgD envShort [urlMsg 1] emptyState).1

/-- A configuration with capacity 2. -/
def cfg4 : Config := ⟨2, 25⟩

/-- A cache at capacity 2 holding articles with ids 5 and 3. -/
def c4state : CacheState := ⟨[art 5 1000, art 3 1001], [], [], [], some 1001, 0⟩

/-! ### Helper lemmas about one processing step -/

theorem processAndStoreMessage_lastMaxId (cfg : Config) (env : Env) (m : Message)
    (s : CacheState) :
    ((processAndStoreMessage cfg env m s).2).lastMaxId = s.lastMaxId := by
  unfold processAndStoreMessage
  dsimp only
  repeat' split
  all_goals rfl

theorem processAndStoreMessage_counter_mono (cfg : Config) (env : Env)
    (m : Message) (s : CacheState) :
    counterVal s ≤ counterVal (processAndStoreMessage cfg env m s).2 := by
  unfold processAndStoreMessage
  dsimp only
  repeat' split
  all_goals simp [counterVal]

theorem processAndStoreMessage_counter_of_stored (cfg : Config) (env : Env)
    (m : Message) (s : CacheState)
    (h : (processAndStoreMessage cfg env m s).1 = ProcResult.stored) :
    counterVal (processAndStoreMessage cfg env m s).2 = counterVal s + 1 := by
  unfold processAndStoreMessage at h ⊢
  dsimp only at h ⊢
  repeat' split at h
  all_goals try simp_all [counterVal]
  all_goals (rw [if_neg (by omega)]; simp [counterVal])

theorem mem_sAdd {s : List Nat} {x i : Nat} (h : i ∈ sAdd s x) : i = x ∨ i ∈ s := by
  unfold sAdd at h
  split at h
  · exact Or.inr h
  · rcases List.mem_cons.1 h with h | h
    · exact Or.inl h
    · exact Or.inr h

theorem processAndStoreMessage_failed_bound (cfg : Config) (env : Env)
    (m : Message) (s : CacheState) (B : Nat) (hm : m.id ≤ B)
    (hf : ∀ i ∈ s.failed, i ≤ B) :
    ∀ i ∈ ((processAndStoreMessage cfg env m s).2).failed, i ≤ B := by
  unfold processAndStoreMessage
  dsimp only
  repeat' split
  all_goals intro i hi
  all_goals first
    | exact hf i hi
    | exact hf i (List.mem_of_mem_erase hi)
    | (rcases mem_sAdd hi with rfl | hi2
       · exact hm
       · exact hf i hi2)

theorem updatedArticles_nodup (cfg : Config) (na : Article) (l : List Article)
    (h : (l.map Article.id).Nodup) :
    ((updatedArticles cfg na l).map Article.id).Nodup := by
  unfold updatedArticles sortArticlesDesc
  have hfil : List.Sublist (l.filter (fun a => a.id ≠ na.id)) l :=
    List.filter_sublist l
  have h1 : ((l.filter (fun a => a.id ≠ na.id)).map Article.id).Nodup :=
    h.sublist (hfil.map Article.id)
  have h2 : na.id ∉ (l.filter (fun a => a.id ≠ na.id)).map Article.id := by
    intro hmem
    obtain ⟨a, ha, hid⟩ := List.mem_map.1 hmem
    have hne := List.of_mem_filter ha
    simp only [decide_eq_true_eq] at hne
    exact hne hid
  have h3 : ((na :: l.filter (fun a => a.id ≠ na.id)).map Article.id).Nodup := by
    simp only [List.map_cons]
    exact List.nodup_cons.2 ⟨h2, h1⟩
  have hperm :
      List.Perm
        (List.insertionSort articleDesc (na :: l.filter (fun a => a.id ≠ na.id)))
        (na :: l.filter (fun a => a.id ≠ na.id)) :=
    List.perm_insertionSort articleDesc _
  have h4 := ((hperm.map Article.id).nodup_iff).2 h3
  exact h4.sublist ((List.take_sublist _ _).map Article.id)

theorem processAndStoreMessage_nodup (cfg : Config) (env : Env) (m : Message)
    (s : CacheState) (h : (s.articles.map Article.id).Nodup) :
    (((processAndStoreMessage cfg env m s).2).articles.map Article.id).Nodup := by
  unfold processAndStoreMessage
  dsimp only
  repeat' split
  all_goals first
    | exact h
    | exact updatedArticles_nodup cfg _ s.articles h

theorem backfillLoop_lastMaxId (cfg : Config) (env : Env) (rmi : Nat)
    (ms : List Message) : ∀ s : CacheState,
    (backfillLoop cfg env rmi ms s).lastMaxId = s.lastMaxId := by
  induction ms with
  | nil => intro s; rfl
  | cons m rest ih =>
    intro s
    unfold backfillLoop
    dsimp only
    repeat' split
    all_goals first
      | exact ih s
      | exact processAndStoreMessage_lastMaxId cfg env m s
      | (rw [ih]; exact processAndStoreMessage_lastMaxId cfg env m s)

theorem forwardLoop_lastMaxId (cfg : Config) (env : Env) (rmi : Nat)
    (ms : List Message) : ∀ (s : CacheState) (hi : Nat),
    ((forwardLoop cfg env rmi ms s hi).1).lastMaxId = s.lastMaxId := by
  induction ms with
  | nil => intro s hi; rfl
  | cons m rest ih =>
    intro s hi
    unfold forwardLoop
    dsimp only
    repeat' split
    all_goals first
      | exact ih s hi
      | exact ih s (max hi m.id)
      | (rw [ih]; exact processAndStoreMessage_lastMaxId cfg env m s)

theorem backfillLoop_failed_bound (cfg : Config) (env : Env) (rmi B : Nat)
    (ms : List Message) : ∀ s : CacheState, (∀ m ∈ ms, m.id ≤ B) →
    (∀ i ∈ s.failed, i ≤ B) →
    ∀ i ∈ (backfillLoop cfg env rmi ms s).failed, i ≤ B := by
  induction ms with
  | nil => intro s _ hf; exact hf
  | cons m rest ih =>
    intro s hms hf
    have hm : m.id ≤ B := hms m (List.mem_cons_self m rest)
    have hrest : ∀ x ∈ rest, x.id ≤ B := fun x hx => hms x (List.mem_cons_of_mem m hx)
    unfold backfillLoop
    dsimp only
    repeat' split
    all_goals first
      | exact ih s hrest hf
      | exact processAndStoreMessage_failed_bound cfg env m s B hm hf
      | exact ih _ hrest (processAndStoreMessage_failed_bound cfg env m s B hm hf)

theorem forwardLoop_failed_bound (cfg : Config) (env : Env) (rmi B : Nat)
    (ms : List Message) : ∀ (s : CacheState) (hi : Nat), (∀ m ∈ ms, m.id ≤ B) →
    (∀ i ∈ s.failed, i ≤ B) →
    ∀ i ∈ ((forwardLoop cfg env rmi ms s hi).1).failed, i ≤ B := by
  induction ms with
  | nil => intro s hi _ hf; exact hf
  | cons m rest ih =>
    intro s hi hms hf
    have hm : m.id ≤ B := hms m (List.mem_cons_self m rest)
    have hrest : ∀ x ∈ rest, x.id ≤ B := fun x hx => hms x (List.mem_cons_of_mem m hx)
    unfold forwardLoop
    dsimp only
    repeat' split
    all_goals first
      | exact ih s hi hrest hf
      | exact ih s (max hi m.id) hrest hf
      | exact ih _ (max hi m.id) hrest
          (processAndStoreMessage_failed_bound cfg env m s B hm hf)
      | exact ih _ hi hrest
          (processAndStoreMessage_failed_bound cfg env m s B hm hf)

/-! ### Helper lemmas about the channel model -/

theorem foldl_max_le_init (ms : List Message) : ∀ acc : Nat,
    acc ≤ ms.foldl (fun a m => max a m.id) acc := by
  induction ms with
  | nil => intro acc; exact le_refl acc
  | cons m rest ih =>
    intro acc
    exact le_trans (le_max_left acc m.id) (ih (max acc m.id))

theorem id_le_foldl_max (ms : List Message) : ∀ (acc : Nat) (m : Message),
    m ∈ ms → m.id ≤ ms.foldl (fun a x => max a x.id) acc := by
  induction ms with
  | nil => intro _ _ h; cases h
  | cons x rest ih =>
    intro acc m hm
    rcases List.mem_cons.1 hm with rfl | hm
    · exact le_trans (le_max_right acc m.id) (foldl_max_le_init rest _)
    · exact ih (max acc x.id) m hm

theorem id_le_getCurrentTelegramMaxId {ch : Channel} {m : Message} (h : m ∈ ch) :
    m.id ≤ getCurrentTelegramMaxId ch :=
  id_le_foldl_max ch 0 m h

theorem mem_sortMessagesAsc {ms : List Message} {m : Message}
    (h : m ∈ sortMessagesAsc ms) : m ∈ ms :=
  (List.mem_insertionSort msgAsc).1 h

theorem mem_sortMessagesDesc {ms : List Message} {m : Message}
    (h : m ∈ sortMessagesDesc ms) : m ∈ ms :=
  (List.mem_insertionSort msgDesc).1 h

theorem mem_channelLatestRaw {ch : Channel} {limit : Nat} {m : Message}
    (h : m ∈ channelLatestRaw ch limit) : m ∈ ch :=
  mem_sortMessagesDesc ((List.take_sublist _ _).mem h)

theorem mem_channelOlderRaw {ch : Channel} {off limit : Nat} {m : Message}
    (h : m ∈ channelOlderRaw ch off limit) : m ∈ ch := by
  unfold channelOlderRaw at h
  have h1 := List.mem_reverse.1 h
  have h2 := (List.take_sublist _ _).mem h1
  exact mem_sortMessagesDesc ((List.filter_sublist _).mem h2)

theorem mem_channelByIdsRaw {ch : Channel} {ids : List Nat} {m : Message}
    (h : m ∈ channelByIdsRaw ch ids) : m ∈ ch :=
  (List.filter_sublist _).mem h

theorem mem_fetchMessagesForBackfill {cfg : Config} {ch : Channel}
    {off need : Nat} {m : Message}
    (h : m ∈ fetchMessagesForBackfill cfg ch off need) : m ∈ ch :=
  mem_channelOlderRaw ((List.filter_sublist _).mem h)

theorem mem_mapInsert {acc : List Message} {m x : Message}
    (h : x ∈ mapInsert acc m) : x ∈ acc ∨ x = m := by
  unfold mapInsert at h
  split at h
  · obtain ⟨y, hy, hxy⟩ := List.mem_map.1 h
    by_cases hid : (y.id == m.id) = true
    · right; rw [if_pos hid] at hxy; exact hxy.symm
    · left; rw [if_neg hid] at hxy; exact hxy ▸ hy
  · rcases List.mem_append.1 h with h | h
    · exact Or.inl h
    · right
      simpa using h

theorem mem_dedupeById_aux (ms : List Message) : ∀ (acc : List Message)
    (x : Message), x ∈ ms.foldl mapInsert acc → x ∈ acc ∨ x ∈ ms := by
  induction ms with
  | nil => intro acc x h; exact Or.inl h
  | cons m rest ih =>
    intro acc x h
    rcases ih (mapInsert acc m) x h with h | h
    · rcases mem_mapInsert h with h | h
      · exact Or.inl h
      · exact Or.inr (h ▸ List.mem_cons_self m rest)
    · exact Or.inr (List.mem_cons_of_mem m h)

theorem mem_dedupeById {ms : List Message} {x : Message}
    (h : x ∈ dedupeById ms) : x ∈ ms := by
  rcases mem_dedupeById_aux ms [] x h with h | h
  · cases h
  · exact h

theorem mem_fetchLatestMessages {cfg : Config} {ch : Channel} {s : CacheState}
    {rmi : Nat} {m : Message} (h : m ∈ fetchLatestMessages cfg ch s rmi) :
    m ∈ ch := by
  unfold fetchLatestMessages at h
  dsimp only at h
  rcases List.mem_append.1 (mem_dedupeById h) with h | h
  · exact mem_channelLatestRaw ((List.filter_sublist _).mem h)
  · split at h
    · exact mem_channelByIdsRaw ((List.filter_sublist _).mem h)
    · cases h

theorem runMessages_counter_mono (cfg : Config) (env : Env) (ms : List Message) :
    ∀ s : CacheState, counterVal s ≤ counterVal (runMessages cfg env ms s) := by
  induction ms with
  | nil => intro s; exact le_refl _
  | cons m rest ih =>
    intro s
    exact le_trans (processAndStoreMessage_counter_mono cfg env m s)
      (ih (processAndStoreMessage cfg env m s).2)

theorem assignedApiIds_gt (cfg : Config) (env : Env) (ms : List Message) :
    ∀ (s : CacheState) (x : Nat), x ∈ assignedApiIds cfg env ms s →
      counterVal s < x := by
  induction ms with
  | nil => intro s x h; cases h
  | cons m rest ih =>
    intro s x h
    unfold assignedApiIds at h
    dsimp only at h
    split at h
    · rcases List.mem_cons.1 h with rfl | h
      · rw [processAndStoreMessage_counter_of_stored cfg env m s (by assumption)]
        omega
      · have h1 := ih _ x h
        have h2 := processAndStoreMessage_counter_mono cfg env m s
        omega
    · have h1 := ih _ x h
      have h2 := processAndStoreMessage_counter_mono cfg env m s
      omega

theorem assignedApiIds_le_final (cfg : Config) (env : Env) (ms : List Message) :
    ∀ (s : CacheState) (x : Nat), x ∈ assignedApiIds cfg env ms s →
      x ≤ counterVal (runMessages cfg env ms s) := by
  induction ms with
  | nil => intro s x h; cases h
  | cons m rest ih =>
    intro s x h
    unfold assignedApiIds at h
    dsimp only at h
    split at h
    · rcases List.mem_cons.1 h with rfl | h
      · exact runMessages_counter_mono cfg env rest _
      · exact ih _ x h
    · exact ih _ x h

theorem assignedApiIds_pairwise (cfg : Config) (env : Env) (ms : List Message) :
    ∀ s : CacheState, List.Pairwise (· < ·) (assignedApiIds cfg env ms s) := by
  induction ms with
  | nil => intro s; exact List.Pairwise.nil
  | cons m rest ih =>
    intro s
    unfold assignedApiIds
    dsimp only
    split
    · refine List.pairwise_cons.2 ⟨?_, ih _⟩
      intro y hy
      have h1 := assignedApiIds_gt cfg env rest _ y hy
      rw [processAndStoreMessage_counter_of_stored cfg env m s (by assumption)] at h1 ⊢
      omega
    · exact ih _

theorem counterVal_initApiIdCounter_mono (s : CacheState) :
    counterVal s ≤ counterVal (initApiIdCounter s) := by
  unfold initApiIdCounter
  rcases hst : s.counter with _ | n
  · simp [counterVal, hst]
  · simp [counterVal, hst]

theorem firstValidUrl_eq_none (o : UrlOracle) (l : List String)
    (h : ∀ u ∈ l, urlCandidate o u = none) : firstValidUrl o l = none := by
  induction l with
  | nil => rfl
  | cons u rest ih =>
    unfold firstValidUrl
    rw [h u (List.mem_cons_self u rest)]
    exact ih (fun v hv => h v (List.mem_cons_of_mem u hv))

/-! ### Helper lemmas about the poll phases -/

theorem pollBackfillPhase_lastMaxId (cfg : Config) (env : Env) (ch : Channel)
    (s : CacheState) : (pollBackfillPhase cfg env ch s).lastMaxId = s.lastMaxId := by
  unfold pollBackfillPhase
  dsimp only
  repeat' split
  all_goals first
    | rfl
    | exact backfillLoop_lastMaxId cfg env s.lastMaxId _ s

theorem pollForwardPhase_lastMaxId (cfg : Config) (env : Env) (ch : Channel)
    (s1 : CacheState) (rmi : Nat) :
    ((pollForwardPhase cfg env ch s1 rmi).1).lastMaxId = s1.lastMaxId := by
  unfold pollForwardPhase
  dsimp only
  split
  · exact forwardLoop_lastMaxId cfg env rmi _ s1 rmi
  · rfl

theorem executePoll_report_telegramMax (cfg : Config) (env : Env) (ch : Channel)
    (s : CacheState) :
    ((executePoll cfg env ch s).2).telegramMax = getCurrentTelegramMaxId ch := by
  unfold executePoll
  dsimp only
  split <;> rfl

theorem executePoll_lastMaxId_eq (cfg : Config) (env : Env) (ch : Channel)
    (s : CacheState) :
    ((executePoll cfg env ch s).1).lastMaxId =
      max (max ((executePoll cfg env ch s).2).highestProcessed
        ((executePoll cfg env ch s).2).telegramMax) s.lastMaxId := by
  unfold executePoll
  dsimp only
  split
  · rfl
  · rename_i h
    have h1 :
        max (max (pollForwardPhase cfg env ch (pollBackfillPhase cfg env ch s)
            s.lastMaxId).2 (getCurrentTelegramMaxId ch)) s.lastMaxId = s.lastMaxId :=
      le_antisymm (not_lt.1 h) (le_max_right _ _)
    rw [h1, pollForwardPhase_lastMaxId, pollBackfillPhase_lastMaxId]

theorem executePoll_lastMaxId_mono (cfg : Config) (env : Env) (ch : Channel)
    (s : CacheState) :
    s.lastMaxId ≤ ((executePoll cfg env ch s).1).lastMaxId := by
  rw [executePoll_lastMaxId_eq]
  exact le_max_right _ _

theorem getCurrentTelegramMaxId_le_executePoll (cfg : Config) (env : Env)
    (ch : Channel) (s : CacheState) :
    getCurrentTelegramMaxId ch ≤ ((executePoll cfg env ch s).1).lastMaxId := by
  rw [executePoll_lastMaxId_eq, ← executePoll_report_telegramMax cfg env ch s]
  exact le_trans (le_max_right _ _) (le_max_left _ _)

theorem executePoll_persisted_iff (cfg : Config) (env : Env) (ch : Channel)
    (s : CacheState) :
    ((executePoll cfg env ch s).2).markPersisted = true ↔
      s.lastMaxId < ((executePoll cfg env ch s).1).lastMaxId := by
  unfold executePoll
  dsimp only
  split
  · rename_i h
    simpa using h
  · rename_i h
    rw [pollForwardPhase_lastMaxId, pollBackfillPhase_lastMaxId]
    simp

theorem executePoll_iterate_mono (cfg : Config) (env : Env) (ch : Channel) :
    ∀ (n : Nat) (s : CacheState),
      s.lastMaxId ≤ ((fun st => (executePoll cfg env ch st).1)^[n] s).lastMaxId := by
  intro n
  induction n with
  | zero => intro s; exact le_refl _
  | succ k ih =>
    intro s
    rw [Function.iterate_succ_apply]
    exact le_trans (executePoll_lastMaxId_mono cfg env ch s) (ih _)

theorem executePoll_failed_bound (cfg : Config) (env : Env) (ch : Channel)
    (s : CacheState)
    (hf : ∀ i ∈ s.failed, i ≤ getCurrentTelegramMaxId ch) :
    ∀ i ∈ ((executePoll cfg env ch s).1).failed, i ≤ getCurrentTelegramMaxId ch := by
  have hback : ∀ i ∈ (pollBackfillPhase cfg env ch s).failed,
      i ≤ getCurrentTelegramMaxId ch := by
    unfold pollBackfillPhase
    dsimp only
    repeat' split
    all_goals first
      | exact hf
      | exact backfillLoop_failed_bound cfg env s.lastMaxId _ _ s
          (fun m hm => id_le_getCurrentTelegramMaxId
            (mem_fetchMessagesForBackfill (mem_sortMessagesAsc hm))) hf
  have hfwd : ∀ i ∈ ((pollForwardPhase cfg env ch (pollBackfillPhase cfg env ch s)
      s.lastMaxId).1).failed, i ≤ getCurrentTelegramMaxId ch := by
    unfold pollForwardPhase
    dsimp only
    split
    · exact forwardLoop_failed_bound cfg env s.lastMaxId _ _ _ s.lastMaxId
        (fun m hm => id_le_getCurrentTelegramMaxId
          (mem_fetchLatestMessages (mem_sortMessagesDesc hm))) hback
    · exact hback
  unfold executePoll
  dsimp only
  split
  · exact hfwd
  · exact hfwd

theorem fetchLatestMessages_eq_nil (cfg : Config) (ch : Channel) (s : CacheState)
    (rmi : Nat) (h2 : getCurrentTelegramMaxId ch ≤ rmi)
    (h3 : ∀ i ∈ s.failed, i ≤ rmi) :
    fetchLatestMessages cfg ch s rmi = [] := by
  unfold fetchLatestMessages
  dsimp only
  have hA : (channelLatestRaw ch cfg.messageFetchLimit).filter
      (fun m => m.id != 0 && decide (rmi < m.id)) = [] := by
    apply List.filter_eq_nil_iff.2
    intro m hm
    have h4 : m.id ≤ rmi :=
      le_trans (id_le_getCurrentTelegramMaxId (mem_channelLatestRaw hm)) h2
    simp only [Bool.and_eq_true, bne_iff_ne, ne_eq, decide_eq_true_eq, not_and]
    intro _
    omega
  have hB : failedIdsToRetry s.failed rmi = [] := by
    unfold failedIdsToRetry
    apply List.filter_eq_nil_iff.2
    intro i hi
    have := h3 i hi
    simp only [decide_eq_true_eq]
    omega
  rw [hA, hB]
  rfl

theorem executePoll_stable (cfg : Config) (env : Env) (ch : Channel)
    (s : CacheState) (h1 : cfg.maxArticles ≤ s.articles.length)
    (h2 : getCurrentTelegramMaxId ch ≤ s.lastMaxId)
    (h3 : ∀ i ∈ s.failed, i ≤ s.lastMaxId) :
    executePoll cfg env ch s =
      (s, ⟨s.lastMaxId, getCurrentTelegramMaxId ch, false⟩) := by
  have hb : pollBackfillPhase cfg env ch s = s := by
    unfold pollBackfillPhase
    dsimp only
    rw [if_neg (by omega)]
  have hfwd : pollForwardPhase cfg env ch s s.lastMaxId = (s, s.lastMaxId) := by
    unfold pollForwardPhase
    rw [fetchLatestMessages_eq_nil cfg ch s s.lastMaxId h2 h3]
    rfl
  unfold executePoll
  dsimp only
  rw [hb, hfwd]
  dsimp only
  rw [Nat.max_eq_left h2, Nat.max_self, if_neg (lt_irrefl _)]

/-! ### Helper lemmas about minIdOf and the store path -/

theorem foldlMin_le_init (t : List Article) : ∀ acc : Nat,
    t.foldl (fun acc b => min acc b.id) acc ≤ acc := by
  induction t with
  | nil => intro acc; exact le_refl _
  | cons b rest ih =>
    intro acc
    exact le_trans (ih (min acc b.id)) (min_le_left _ _)

theorem foldlMin_le_mem (t : List Article) : ∀ (acc : Nat) (a : Article),
    a ∈ t → t.foldl (fun acc b => min acc b.id) acc ≤ a.id := by
  induction t with
  | nil => intro _ _ h; cases h
  | cons b rest ih =>
    intro acc a ha
    rcases List.mem_cons.1 ha with rfl | ha
    · exact le_trans (foldlMin_le_init rest _) (min_le_right _ _)
    · exact ih _ a ha

theorem foldlMin_mem (t : List Article) : ∀ acc : Nat,
    t.foldl (fun acc b => min acc b.id) acc = acc ∨
    ∃ a ∈ t, t.foldl (fun acc b => min acc b.id) acc = a.id := by
  induction t with
  | nil => intro acc; exact Or.inl rfl
  | cons b rest ih =>
    intro acc
    rcases ih (min acc b.id) with h | ⟨a, ha, h⟩
    · rcases le_total acc b.id with hc | hc
      · left
        show rest.foldl (fun acc b => min acc b.id) (min acc b.id) = acc
        rw [h, min_eq_left hc]
      · right
        refine ⟨b, List.mem_cons_self b rest, ?_⟩
        show rest.foldl (fun acc b => min acc b.id) (min acc b.id) = b.id
        rw [h, min_eq_right hc]
    · right
      exact ⟨a, List.mem_cons_of_mem b ha, h⟩

theorem minIdOf_le {l : List Article} {a : Article} (h : a ∈ l) :
    minIdOf l ≤ a.id := by
  cases l with
  | nil => cases h
  | cons b t =>
    unfold minIdOf
    rcases List.mem_cons.1 h with rfl | h
    · exact foldlMin_le_init t a.id
    · exact foldlMin_le_mem t b.id a h

theorem minIdOf_mem {l : List Article} (h : l ≠ []) :
    minIdOf l ∈ l.map Article.id := by
  cases l with
  | nil => exact absurd rfl h
  | cons b t =>
    unfold minIdOf
    dsimp only
    rcases foldlMin_mem t b.id with h1 | ⟨a, ha, h1⟩
    · rw [h1]
      exact List.mem_map.2 ⟨b, List.mem_cons_self b t, rfl⟩
    · rw [h1]
      exact List.mem_map.2 ⟨a, List.mem_cons_of_mem b ha, rfl⟩

theorem processAndStoreMessage_store_eq (cfg : Config) (env : Env) (m : Message)
    (s : CacheState) (u : String) (sm : Summary) (h0 : m.id ≠ 0)
    (hl : m.id ∉ s.locks) (hp : m.id ∉ s.processedSet)
    (hu : extractValidUrl env.url (takeChars m.text 2000) m.entities = some u)
    (hs : env.summarize (takeChars m.text 2000) m.id u = some sm)
    (hv : ¬(sm.headline = "" ∨ sm.content = "" ∨ sm.content.length < 50)) :
    processAndStoreMessage cfg env m s =
      (ProcResult.stored,
        { s with
            articles := updatedArticles cfg (builtArticle env m u sm s) s.articles,
            processedSet := sAdd s.processedSet m.id,
            failed := s.failed.erase m.id,
            counter := some (counterVal s + 1),
            locks := s.locks.erase m.id }) := by
  unfold processAndStoreMessage
  rw [if_neg h0, if_neg hl, if_neg hp]
  dsimp only
  simp only [hu, hs]
  rw [if_neg hv]

theorem updatedArticles_at_capacity (cfg : Config) (na : Article)
    (l : List Article) (hcap : l.length = cfg.maxArticles)
    (hpos : 0 < cfg.maxArticles) (hnodup : (l.map Article.id).Nodup)
    (hmin : minIdOf l < na.id) (hnew : na.id ∉ l.map Article.id) :
    (updatedArticles cfg na l).length = cfg.maxArticles ∧
    List.Pairwise (fun x y => y < x) ((updatedArticles cfg na l).map Article.id) ∧
    minIdOf l ∉ (updatedArticles cfg na l).map Article.id ∧
    ∀ i : Nat, i ∈ (updatedArticles cfg na l).map Article.id ↔
      ((i = na.id ∨ i ∈ l.map Article.id) ∧ i ≠ minIdOf l) := by
  have hfilter : l.filter (fun a => a.id ≠ na.id) = l := by
    apply List.filter_eq_self.2
    intro a ha
    simp only [decide_eq_true_eq]
    intro hcontra
    exact hnew (by rw [← hcontra]; exact List.mem_map.2 ⟨a, ha, rfl⟩)
  have hUA : updatedArticles cfg na l =
      (sortArticlesDesc (na :: l)).take cfg.maxArticles := by
    unfold updatedArticles
    rw [hfilter]
  have hperm : List.Perm (sortArticlesDesc (na :: l)) (na :: l) :=
    List.perm_insertionSort articleDesc (na :: l)
  have hlen : (sortArticlesDesc (na :: l)).length = cfg.maxArticles + 1 := by
    rw [hperm.length_eq]
    simp [hcap]
  have hsorted : List.Sorted articleDesc (sortArticlesDesc (na :: l)) :=
    List.sorted_insertionSort articleDesc (na :: l)
  have hconsnodup : ((na :: l).map Article.id).Nodup := by
    simp only [List.map_cons]
    exact List.nodup_cons.2 ⟨hnew, hnodup⟩
  have hLnodup : ((sortArticlesDesc (na :: l)).map Article.id).Nodup :=
    ((hperm.map Article.id).nodup_iff).2 hconsnodup
  have hstrict : List.Pairwise (fun a b : Article => b.id < a.id)
      (sortArticlesDesc (na :: l)) := by
    have h1 : (sortArticlesDesc (na :: l)).Pairwise (fun a b => a.id ≠ b.id) :=
      (List.pairwise_map).1 hLnodup
    exact (hsorted.and h1).imp (fun h => lt_of_le_of_ne h.1 (fun e => h.2 e.symm))
  have hne2 : sortArticlesDesc (na :: l) ≠ [] := by
    intro hLnil
    rw [hLnil] at hlen
    simp at hlen
  have hdecomp :
      (sortArticlesDesc (na :: l)).dropLast ++
        [(sortArticlesDesc (na :: l)).getLast hne2] = sortArticlesDesc (na :: l) :=
    List.dropLast_append_getLast hne2
  have htake : (sortArticlesDesc (na :: l)).take cfg.maxArticles =
      (sortArticlesDesc (na :: l)).dropLast := by
    rw [List.dropLast_eq_take]
    congr 1
    omega
  have hsplit := List.pairwise_append.1 (by rw [hdecomp]; exact hstrict)
  have hlast_lt : ∀ a ∈ (sortArticlesDesc (na :: l)).dropLast,
      ((sortArticlesDesc (na :: l)).getLast hne2).id < a.id := fun a ha =>
    hsplit.2.2 a ha _ (List.mem_singleton.2 rfl)
  have hL_mem : ∀ x : Article, x ∈ sortArticlesDesc (na :: l) ↔ (x = na ∨ x ∈ l) := by
    intro x
    rw [hperm.mem_iff]
    exact List.mem_cons
  have hlast_le_all : ∀ x ∈ sortArticlesDesc (na :: l),
      ((sortArticlesDesc (na :: l)).getLast hne2).id ≤ x.id := by
    intro x hx
    rw [← hdecomp] at hx
    rcases List.mem_append.1 hx with hx | hx
    · exact le_of_lt (hlast_lt x hx)
    · rw [List.mem_singleton.1 hx]
  have hlnonempty : l ≠ [] := by
    intro hl0
    rw [hl0] at hcap
    simp at hcap
    omega
  obtain ⟨amin, hamin, haminid⟩ := List.mem_map.1 (minIdOf_mem hlnonempty)
  have haminL : amin ∈ sortArticlesDesc (na :: l) := (hL_mem amin).2 (Or.inr hamin)
  have h_le : ((sortArticlesDesc (na :: l)).getLast hne2).id ≤ minIdOf l := by
    rw [← haminid]
    exact hlast_le_all amin haminL
  have hlastmem : (sortArticlesDesc (na :: l)).getLast hne2 ∈ sortArticlesDesc (na :: l) :=
    List.getLast_mem hne2
  have h_ge : minIdOf l ≤ ((sortArticlesDesc (na :: l)).getLast hne2).id := by
    rcases (hL_mem _).1 hlastmem with hcase | hcase
    · exfalso
      rw [hcase] at h_le
      omega
    · exact minIdOf_le hcase
  have hlastid : ((sortArticlesDesc (na :: l)).getLast hne2).id = minIdOf l :=
    le_antisymm h_le h_ge
  rw [hUA, htake]
  refine ⟨?_, ?_, ?_, ?_⟩
  · rw [List.length_dropLast, hlen]
    omega
  · exact (List.pairwise_map).2 hsplit.1
  · intro hmem
    obtain ⟨a, ha, haid⟩ := List.mem_map.1 hmem
    have hgt := hlast_lt a ha
    omega
  · intro i
    constructor
    · intro hmem
      obtain ⟨a, ha, haid⟩ := List.mem_map.1 hmem
      have haL : a ∈ sortArticlesDesc (na :: l) :=
        (List.dropLast_sublist _).mem ha
      have hid_lt := hlast_lt a ha
      refine ⟨?_, ?_⟩
      · rcases (hL_mem a).1 haL with rfl | hal
        · exact Or.inl haid.symm
        · exact Or.inr (List.mem_map.2 ⟨a, hal, haid⟩)
      · intro hcontra
        rw [← haid] at hcontra
        omega
    · rintro ⟨hcase, hneq⟩
      obtain ⟨x, hxmem, hxid⟩ :
          ∃ x, x ∈ sortArticlesDesc (na :: l) ∧ x.id = i := by
        rcases hcase with rfl | hmem
        · exact ⟨na, (hL_mem na).2 (Or.inl rfl), rfl⟩
        · obtain ⟨a, ha, haid⟩ := List.mem_map.1 hmem
          exact ⟨a, (hL_mem a).2 (Or.inr ha), haid⟩
      rw [← hdecomp] at hxmem
      rcases List.mem_append.1 hxmem with hx | hx
      · exact List.mem_map.2 ⟨x, hx, hxid⟩
      · exfalso
        have hxl := List.mem_singleton.1 hx
        rw [hxl] at hxid
        exact hneq (by omega)

/-! ### Theorems -/

/-- C1: starting from an article collection with pairwise-distinct ids,
no sequence of processAndStoreMessage calls ever produces two stored
Articles with the same id: the store path removes any same-id entry,
resorts newest-id-first and trims to capacity before writing. -/
theorem article_ids_nodup_invariant (cfg : Config) (env : Env) (ms : List Message)
    (s : CacheState) (h : (s.articles.map Article.id).Nodup) :
    (((runMessages cfg env ms s).articles.map Article.id)).Nodup := by
  induction ms generalizing s with
  | nil => exact h
  | cons m rest ih => exact ih _ (processAndStoreMessage_nodup cfg env m s h)

/-- C1 witness: a concrete two-message run from the empty collection
keeps the stored ids duplicate-free. -/
theorem article_ids_nodup_invariant_witness :
    (((runMessages cfgD envOk [urlMsg 1, urlMsg 2] emptyState).articles.map
      Article.id)).Nodup :=
  article_ids_nodup_invariant cfgD envOk [urlMsg 1, urlMsg 2] emptyState (by decide)

/-- C5: over any run, with any restart point at which the cold-start
counter initialization runs, the assigned apiId values are strictly
increasing in assignment order (hence never repeat); the initializer
never resets an existing counter and sets an absent counter to the fixed
start offset 999. -/
theorem apiIds_strictly_increasing_across_restarts (cfg : Config) (env : Env)
    (ms1 ms2 : List Message) (s : CacheState) :
    List.Pairwise (· < ·)
      (assignedApiIds cfg env ms1 s ++
        assignedApiIds cfg env ms2 (initApiIdCounter (runMessages cfg env ms1 s))) ∧
    (∀ (st : CacheState) (n : Nat),
      initApiIdCounter { st with counter := some n } = { st with counter := some n }) ∧
    (∀ st : CacheState, (initApiIdCounter st).counter = some (st.counter.getD 999)) := by
  refine ⟨?_, ?_, ?_⟩
  · rw [List.pairwise_append]
    refine ⟨assignedApiIds_pairwise cfg env ms1 s, assignedApiIds_pairwise cfg env ms2 _, ?_⟩
    intro x hx y hy
    have h1 := assignedApiIds_le_final cfg env ms1 s x hx
    have h2 := counterVal_initApiIdCounter_mono (runMessages cfg env ms1 s)
    have h3 := assignedApiIds_gt cfg env ms2 _ y hy
    omega
  · intro st n; rfl
  · intro st
    unfold initApiIdCounter
    rcases hst : st.counter with _ | n
    · simp [hst]
    · simp [hst]

/-- C2: a message whose summary fails validation returns failed and gets
an unexpired Failure Record, but contrary to the claim the id does not
stay in the forward-fetch failed-retry candidate set: the same cycle
raises the high-water mark to the channel max, the filter
id > lastMaxId then rejects the id, and the next cycle leaves the cache
unchanged, never re-attempting the message. -/
theorem failedRetry_candidate_set_empty_after_failure :
    (processAndStoreMessage cfgD envShort (urlMsg 1) emptyState).1 =
      ProcResult.failedValidation ∧
    failCycleState.failed = [1] ∧
    1 ∈ failCycleState.processedSet ∧
    failCycleState.lastMaxId = 1 ∧
    failedIdsToRetry failCycleState.failed failCycleState.lastMaxId = [] ∧
    (executePoll cfgD envShort [urlMsg 1] failCycleState).1 = failCycleState := by
  decide

/-- C3: a call hitting a held lock returns the skip boolean, but contrary
to the claim it does not leave the cache unchanged: the finally clause
deletes the lock key held by the other attempt. -/
theorem lock_contention_deletes_foreign_lock :
    (processAndStoreMessage cfgD envOk ⟨7, "", []⟩ lockState).1 =
      ProcResult.skippedLock ∧
    ((processAndStoreMessage cfgD envOk ⟨7, "", []⟩ lockState).1).toBool = true ∧
    lockState.locks = [7] ∧
    ((processAndStoreMessage cfgD envOk ⟨7, "", []⟩ lockState).2).locks = [] := by
  decide

/-- C10: in a run where an attempt crashes between the counter INCR and
the article transaction, an apiId is consumed that no stored article
carries: here ids 1001 and 1003 are lost, the counter (1003) strictly
exceeds the highest stored apiId (1002), and the stored apiIds are
strictly increasing in assignment order but not contiguous. -/
theorem apiId_gap_on_crash_between_incr_and_commit :
    crashRunState.counter = some 1003 ∧
    crashRunState.articles.map Article.apiId = [1002, 1000] ∧
    1001 ∉ crashRunState.articles.map Article.apiId ∧
    (∀ a ∈ crashRunState.articles, a.apiId < 1003) ∧
    List.Pairwise (fun x y => y < x) (crashRunState.articles.map Article.apiId) := by
  decide

/-- C7: when no valid URL can be extracted from the message text or
entities, processAndStoreMessage returns the skip outcome (true, not an
error), adds the id to the processed set, releases only the lock, and the
Summarizer oracle is never invoked: the whole call is independent of the
summarize function. -/
theorem processAndStoreMessage_no_url_skips (cfg : Config) (env : Env)
    (m : Message) (s : CacheState) (h0 : m.id ≠ 0) (hl : m.id ∉ s.locks)
    (hp : m.id ∉ s.processedSet)
    (hu : extractValidUrl env.url (takeChars m.text 2000) m.entities = none) :
    (processAndStoreMessage cfg env m s).1 = ProcResult.skippedNoUrl ∧
    ((processAndStoreMessage cfg env m s).1).toBool = true ∧
    (processAndStoreMessage cfg env m s).2 =
      { s with processedSet := sAdd s.processedSet m.id,
               locks := s.locks.erase m.id } ∧
    ∀ f, processAndStoreMessage cfg { env with summarize := f } m s =
      processAndStoreMessage cfg env m s := by
  have key : ∀ e2 : Env, e2.url = env.url →
      processAndStoreMessage cfg e2 m s =
        (ProcResult.skippedNoUrl,
          { s with processedSet := sAdd s.processedSet m.id,
                   locks := s.locks.erase m.id }) := by
    intro e2 he
    unfold processAndStoreMessage
    rw [if_neg h0, if_neg hl, if_neg hp]
    dsimp only
    rw [he, hu]
  refine ⟨?_, ?_, ?_, ?_⟩
  · rw [key env rfl]
  · rw [key env rfl]; rfl
  · rw [key env rfl]
  · intro f
    rw [key { env with summarize := f } rfl, key env rfl]

/-- C7 witness: a concrete message without any link is skipped with its
id recorded as processed. -/
theorem processAndStoreMessage_no_url_skips_witness :
    (processAndStoreMessage cfgD envOk ⟨5, "no link here", []⟩ emptyState).1 =
      ProcResult.skippedNoUrl ∧
    (processAndStoreMessage cfgD envOk ⟨5, "no link here", []⟩ emptyState).2 =
      { emptyState with processedSet := sAdd emptyState.processedSet 5,
                        locks := emptyState.locks.erase 5 } := by
  have h := processAndStoreMessage_no_url_skips cfgD envOk ⟨5, "no link here", []⟩
    emptyState (by decide) (by decide) (by decide) (by decide)
  exact ⟨h.1, h.2.2.1⟩

/-- C8 counterexample: the entity list contains a text-link entity whose
target is a valid https URL, yet extractValidUrl returns the plain-text
URL of the message text, because only the first text-link entity is ever
consulted and its target is invalid. -/
theorem extractValidUrl_entity_priority_counterexample :
    (∃ e ∈ [entBad, entGood], entIsTextUrl e = true ∧
      entityUrlResult testOracle e = some "https://good.example/") ∧
    extractValidUrl testOracle "http://plain.example/" [entBad, entGood] =
      some "http://plain.example/" ∧
    extractValidUrl testOracle "http://plain.example/" [entBad, entGood] ≠
      some "https://good.example/" := by
  decide

/-- C4: storing a new valid article into a collection already at
capacity (distinct ids), whose id exceeds the smallest stored id and is
not already stored, yields exactly MAX_ARTICLES articles, sorted
strictly newest-id-first, with the smallest-id article evicted: the
resulting ids are exactly the old ids plus the new id minus the smallest
old id. -/
theorem processAndStoreMessage_at_capacity_evicts_oldest (cfg : Config)
    (env : Env) (m : Message) (s : CacheState) (u : String) (sm : Summary)
    (hcap : s.articles.length = cfg.maxArticles) (hpos : 0 < cfg.maxArticles)
    (hnodup : (s.articles.map Article.id).Nodup)
    (hmin : minIdOf s.articles < m.id)
    (hnew : m.id ∉ s.articles.map Article.id)
    (hl : m.id ∉ s.locks) (hp : m.id ∉ s.processedSet)
    (hu : extractValidUrl env.url (takeChars m.text 2000) m.entities = some u)
    (hs : env.summarize (takeChars m.text 2000) m.id u = some sm)
    (hv : ¬(sm.headline = "" ∨ sm.content = "" ∨ sm.content.length < 50)) :
    (processAndStoreMessage cfg env m s).1 = ProcResult.stored ∧
    ((processAndStoreMessage cfg env m s).2).articles.length = cfg.maxArticles ∧
    List.Pairwise (fun x y => y < x)
      (((processAndStoreMessage cfg env m s).2).articles.map Article.id) ∧
    minIdOf s.articles ∉
      ((processAndStoreMessage cfg env m s).2).articles.map Article.id ∧
    ∀ i : Nat,
      i ∈ ((processAndStoreMessage cfg env m s).2).articles.map Article.id ↔
        ((i = m.id ∨ i ∈ s.articles.map Article.id) ∧ i ≠ minIdOf s.articles) := by
  have h0 : m.id ≠ 0 := by omega
  have heq := processAndStoreMessage_store_eq cfg env m s u sm h0 hl hp hu hs hv
  have hmain := updatedArticles_at_capacity cfg (builtArticle env m u sm s)
    s.articles hcap hpos hnodup hmin hnew
  rw [heq]
  exact ⟨rfl, hmain.1, hmain.2.1, hmain.2.2.1, hmain.2.2.2⟩

/-- C4 witness: storing id 4 into the capacity-2 collection holding ids 5
and 3 keeps exactly 2 articles and evicts the article with id 3. -/
theorem processAndStoreMessage_at_capacity_evicts_oldest_witness :
    (processAndStoreMessage cfg4 envOk (urlMsg 4) c4state).1 =
      ProcResult.stored ∧
    ((processAndStoreMessage cfg4 envOk (urlMsg 4) c4state).2).articles.length = 2 ∧
    minIdOf c4state.articles ∉
      ((processAndStoreMessage cfg4 envOk (urlMsg 4) c4state).2).articles.map
        Article.id := by
  have h := processAndStoreMessage_at_capacity_evicts_oldest cfg4 envOk
    (urlMsg 4) c4state "http://a.example/x"
    ⟨"Headline", longBody, "http://a.example/x"⟩ (by decide) (by decide)
    (by decide) (by decide) (by decide) (by decide) (by decide) (by decide)
    (by decide) (by decide)
  exact ⟨h.1, h.2.1, h.2.2.2.1⟩

/-- C6: after a poll cycle the stored high-water mark equals the maximum
of the highest successfully-or-skip-processed id of the cycle, the
channel latest id fetched at cycle end, and the previous mark; the key
is written only when the value strictly increased, and the mark is
monotonically non-decreasing over one cycle and over any number of
cycles. -/
theorem executePoll_lastMaxId_spec (cfg : Config) (env : Env) (ch : Channel)
    (s : CacheState) :
    ((executePoll cfg env ch s).1).lastMaxId =
      max (max ((executePoll cfg env ch s).2).highestProcessed
        ((executePoll cfg env ch s).2).telegramMax) s.lastMaxId ∧
    ((executePoll cfg env ch s).2).telegramMax = getCurrentTelegramMaxId ch ∧
    s.lastMaxId ≤ ((executePoll cfg env ch s).1).lastMaxId ∧
    (((executePoll cfg env ch s).2).markPersisted = true ↔
      s.lastMaxId < ((executePoll cfg env ch s).1).lastMaxId) ∧
    ∀ n : Nat, s.lastMaxId ≤
      ((fun st => (executePoll cfg env ch st).1)^[n] s).lastMaxId :=
  ⟨executePoll_lastMaxId_eq cfg env ch s,
    executePoll_report_telegramMax cfg env ch s,
    executePoll_lastMaxId_mono cfg env ch s,
    executePoll_persisted_iff cfg env ch s,
    fun n => executePoll_iterate_mono cfg env ch n s⟩

/-- C9 amended: when the first cycle leaves the article collection at
capacity (backfill inactive) and every unexpired failure record id is a
channel id, the second cycle with no new channel activity fetches
nothing, changes nothing and does not persist the mark. -/
theorem executePoll_idempotent_amended (cfg : Config) (env : Env) (ch : Channel)
    (s : CacheState)
    (hfail : ∀ i ∈ s.failed, i ≤ getCurrentTelegramMaxId ch)
    (hcap : cfg.maxArticles ≤ ((executePoll cfg env ch s).1).articles.length) :
    executePoll cfg env ch ((executePoll cfg env ch s).1) =
      (((executePoll cfg env ch s).1),
        ⟨((executePoll cfg env ch s).1).lastMaxId, getCurrentTelegramMaxId ch,
          false⟩) := by
  apply executePoll_stable
  · exact hcap
  · exact getCurrentTelegramMaxId_le_executePoll cfg env ch s
  · intro i hi
    exact le_trans (executePoll_failed_bound cfg env ch s hfail i hi)
      (getCurrentTelegramMaxId_le_executePoll cfg env ch s)

/-- C9 amended witness: with capacity 1 over a one-message channel the
first cycle fills the collection and the second cycle is a no-op. -/
theorem executePoll_idempotent_amended_witness :
    executePoll ⟨1, 25⟩ envOk [urlMsg 1]
        ((executePoll ⟨1, 25⟩ envOk [urlMsg 1] emptyState).1) =
      (((executePoll ⟨1, 25⟩ envOk [urlMsg 1] emptyState).1),
        ⟨((executePoll ⟨1, 25⟩ envOk [urlMsg 1] emptyState).1).lastMaxId,
          getCurrentTelegramMaxId [urlMsg 1], false⟩) :=
  executePoll_idempotent_amended ⟨1, 25⟩ envOk [urlMsg 1] emptyState
    (by decide) (by decide)

/-- C9 counterexample: with capacity 2 and fetch limit 1 over a static
two-message channel, the first cycle stores only the newest message, and
the second cycle backfills and stores another article, so running the
cycle twice with no new channel activity is not idempotent. -/
theorem executePoll_not_idempotent_counterexample :
    ((executePoll cfg92 envOk ch92
        ((executePoll cfg92 envOk ch92 emptyState).1)).1).articles ≠
      ((executePoll cfg92 envOk ch92 emptyState).1).articles := by
  decide

/-- C8 amended: the first text-link entity is the authoritative one.
First conjunct: when the target of the first text-link entity parses as
a valid http/https URL, extractValidUrl returns that URL regardless of
the message text. Second conjunct: whenever the first text-link entity
(if any) yields no valid URL, the result is exactly the regex scan of
the text — with no assumption on later entities, so the fallback fires
even when a later entity holds a valid URL. Third conjunct: when the
first text-link entity (if any) yields no valid URL and no regex match
of the text parses as a valid http/https URL, the function returns
none (it is total by construction). -/
theorem extractValidUrl_amended_spec :
    (∀ (o : UrlOracle) (text : String) (ents : List MsgEntity) (e : MsgEntity)
        (u : String) (p : ParsedUrl),
      ents.find? entIsTextUrl = some e → e.url = some u → o.parse u = some p →
      isValidHttpUrl p = true → extractValidUrl o text ents = some p.href) ∧
    (∀ (o : UrlOracle) (text : String) (ents : List MsgEntity),
      (∀ e : MsgEntity, ents.find? entIsTextUrl = some e →
        entityUrlResult o e = none) →
      extractValidUrl o text ents = firstValidUrl o (o.matchList text)) ∧
    (∀ (o : UrlOracle) (text : String) (ents : List MsgEntity),
      (∀ e : MsgEntity, ents.find? entIsTextUrl = some e →
        entityUrlResult o e = none) →
      (∀ u ∈ o.matchList text, urlCandidate o u = none) →
      extractValidUrl o text ents = none) := by
  have hfallback : ∀ (o : UrlOracle) (text : String) (ents : List MsgEntity),
      (∀ e : MsgEntity, ents.find? entIsTextUrl = some e →
        entityUrlResult o e = none) →
      extractValidUrl o text ents = firstValidUrl o (o.matchList text) := by
    intro o text ents hfirst
    cases hfind : ents.find? entIsTextUrl with
    | none => simp [extractValidUrl, hfind]
    | some e => simp [extractValidUrl, hfind, hfirst e hfind]
  refine ⟨?_, hfallback, ?_⟩
  · intro o text ents e u p hfind hurl hparse hvalid
    have hres : entityUrlResult o e = some p.href := by
      simp [entityUrlResult, urlCandidate, hurl, hparse, hvalid]
    simp [extractValidUrl, hfind, hres]
  · intro o text ents hfirst hmatch
    rw [hfallback o text ents hfirst]
    exact firstValidUrl_eq_none o _ hmatch

/-- C8 amended witness: a valid first text-link entity wins over a
different plain-text URL; an invalid first entity falls back to the
regex scan even though a later entity holds a valid URL; and a message
with no valid URL anywhere yields none. -/
theorem extractValidUrl_amended_spec_witness :
    extractValidUrl testOracle "http://plain.example/" [entGood] =
      some "https://good.example/" ∧
    extractValidUrl testOracle "http://plain.example/" [entBad, entGood] =
      firstValidUrl testOracle
        (testOracle.matchList "http://plain.example/") ∧
    extractValidUrl testOracle "no link here" [entBad] = none := by
  have hfirstBad : ∀ e : MsgEntity,
      List.find? entIsTextUrl [entBad, entGood] = some e →
      entityUrlResult testOracle e = none := by
    intro e he
    rw [show List.find? entIsTextUrl [entBad, entGood] = some entBad from rfl] at he
    injection he with h2
    rw [← h2]
    decide
  refine ⟨?_, ?_, ?_⟩
  · exact extractValidUrl_amended_spec.1 testOracle "http://plain.example/"
      [entGood] entGood "https://good.example/"
      ⟨"https:", "https://good.example/"⟩ (by decide) (by decide) (by decide)
      (by decide)
  · exact extractValidUrl_amended_spec.2.1 testOracle "http://plain.example/"
      [entBad, entGood] hfirstBad
  · exact extractValidUrl_amended_spec.2.2 testOracle "no link here" [entBad]
      (by
        intro e he
        rw [show List.find? entIsTextUrl [entBad] = some entBad from rfl] at he
        injection he with h2
        rw [← h2]
        decide)
      (by decide)

end CryptoNews
